import Mathlib

/-
Verification of the genv configuration-resolution and generation engine.

The definitions below are a shallow embedding of the TypeScript source:
  * src/generator.ts   - resolveVariable, extractVariableValue,
                         convertValueToString, generateEnvContent,
                         getEnvironmentVariables, determineFilename,
                         generateEnvFile
  * src/utils/path.util.ts - determineFilename, determineFilePath,
                         determineOutputPath
  * src/types.ts       - EnvConfigSchema and its sub-schemas (zod)
  * src/parser.ts      - formatZodError

JavaScript objects are modelled as association lists in insertion order,
JavaScript strings as Lean String, the regex /\$\x7bshared:([^}]+)\x7d/g
as an explicit left-to-right scan, and fallible functions as Except.
-/

namespace Genv

/-- Association-list lookup, modelling JavaScript property access
`obj[key]` on a plain object (first binding wins; source objects have
unique keys). -/
def lookupAssoc {α : Type} : List (String × α) → String → Option α
  | [], _ => none
  | (k, v) :: rest, key => if k = key then some v else lookupAssoc rest key

/-- Embedding of JavaScript `Array.prototype.join(sep)`. -/
def joinSep (sep : String) : List String → String
  | [] => ""
  | [x] => x
  | x :: y :: xs => x ++ sep ++ joinSep sep (y :: xs)

/-- Scalar configuration value: string, number or boolean
(the `string | number | boolean` union of src/generator.ts; numbers are
modelled as integers, which covers every numeric literal the claims
touch). -/
inductive Scalar where
  | str (s : String)
  | num (n : Int)
  | bool (b : Bool)
deriving DecidableEq, Repr

/-- JavaScript `String(v)` on a scalar. -/
def scalarToString : Scalar → String
  | .str s => s
  | .num n => toString n
  | .bool b => if b then "true" else "false"

/-
The variable resolver (src/generator.ts, resolveVariable).

`value.replace(/\$\x7bshared:([^}]+)\x7d/g, cb)` scans the string left to
right; at each position it tries to match the literal head followed by a
non-empty run of characters other than a closing brace, terminated by a
closing brace.  On a match the callback's result is appended to the
output buffer and scanning resumes after the match; otherwise one
character is copied and scanning advances by one.
-/

/-- The nine literal characters opening a placeholder. -/
def placeholderHead : List Char := ['$', '\x7b', 's', 'h', 'a', 'r', 'e', 'd', ':']

/-- Prefix test on character lists. -/
def startsWithChars : List Char → List Char → Bool
  | [], _ => true
  | _ :: _, [] => false
  | p :: ps, c :: cs => p = c && startsWithChars ps cs

/-- Split at the first closing brace: the run of non-brace characters
before it (the regex capture `[^}]+`, possibly empty here) and the
remainder after the brace. -/
def splitAtCloseBrace : List Char → Option (List Char × List Char)
  | [] => none
  | c :: cs =>
    if c = '\x7d' then some ([], cs)
    else
      match splitAtCloseBrace cs with
      | some (nm, rest) => some (c :: nm, rest)
      | none => none

/-- Match the placeholder regex at the head of the list; on success
return the captured name (non-empty, without braces) and the remainder
after the closing brace. -/
def matchPlaceholder (l : List Char) : Option (String × List Char) :=
  if startsWithChars placeholderHead l then
    match splitAtCloseBrace (l.drop 9) with
    | some (nm, rest) => if nm = [] then none else some (String.mk nm, rest)
    | none => none
  else none

theorem splitAtCloseBrace_length {l nm rest} (h : splitAtCloseBrace l = some (nm, rest)) :
    rest.length < l.length := by
  induction l generalizing nm rest with
  | nil => simp [splitAtCloseBrace] at h
  | cons c cs ih =>
    simp only [splitAtCloseBrace] at h
    by_cases hc : c = '\x7d'
    · simp [hc] at h
      obtain ⟨h1, h2⟩ := h
      subst h2
      simp
    · simp [hc] at h
      rcases hsp : splitAtCloseBrace cs with _ | ⟨nm1, rest1⟩
      · rw [hsp] at h; simp at h
      · rw [hsp] at h
        simp at h
        obtain ⟨h1, h2⟩ := h
        subst h2
        have := ih hsp
        simp
        omega

theorem matchPlaceholder_length {l : List Char} {name rest}
    (h : matchPlaceholder l = some (name, rest)) : rest.length < l.length := by
  unfold matchPlaceholder at h
  by_cases hs : startsWithChars placeholderHead l
  · rw [if_pos hs] at h
    rcases hsp : splitAtCloseBrace (l.drop 9) with _ | ⟨nm, rest1⟩
    · rw [hsp] at h; simp at h
    · rw [hsp] at h
      by_cases hnm : nm = []
      · simp [hnm] at h
      · simp [hnm] at h
        obtain ⟨h1, h2⟩ := h
        subst h2
        have h3 := splitAtCloseBrace_length hsp
        have h4 : (l.drop 9).length ≤ l.length := by simp
        omega
  · rw [if_neg hs] at h; simp at h

/-- The single replace pass of `resolveVariable` (src/generator.ts 20-28).
Returns the output buffer built by `String.prototype.replace` and the
list of missing shared names in the order their occurrences were
encountered (one entry per occurrence).  On a missing name the source
callback records the error and returns `value`, the entire original
input string, which therefore is what lands in the buffer. -/
def resolveScan (sharedVars : List (String × Scalar)) (orig : String) :
    List Char → List Char × List String
  | [] => ([], [])
  | c :: cs =>
    match h : matchPlaceholder (c :: cs) with
    | some (name, rest) =>
      let r := resolveScan sharedVars orig rest
      match lookupAssoc sharedVars name with
      | some v => ((scalarToString v).data ++ r.1, r.2)
      | none => (orig.data ++ r.1, name :: r.2)
    | none =>
      let r := resolveScan sharedVars orig cs
      (c :: r.1, r.2)
termination_by l => l.length
decreasing_by
  · exact matchPlaceholder_length h
  · simp

/-- Embedding of `resolveVariable` (src/generator.ts 13-35).  The source
keeps a single mutable `hasError` slot that every missing occurrence
overwrites, so the error it returns carries the message of the last
missing occurrence; with no missing occurrence it returns the replaced
string. -/
def resolveVariable (value : String) (sharedVars : List (String × Scalar)) :
    Except String String :=
  let r := resolveScan sharedVars value value.data
  match r.2.getLast? with
  | some name => .error ("Shared variable '" ++ name ++ "' not found")
  | none => .ok (String.mk r.1)

/-- Variable value (src/generator.ts 37-41): a scalar or the annotated
object shape with optional comment and type hint. -/
inductive VariableValue where
  | scalar (v : Scalar)
  | annotated (value : Scalar) (comment : Option String) (type : Option String)
deriving DecidableEq, Repr

/-- Embedding of `extractVariableValue` (src/generator.ts 43-58). -/
def extractVariableValue : VariableValue → Scalar × Option String
  | .scalar v => (v, none)
  | .annotated v c _ => (v, c)

/-- Embedding of `convertValueToString` (src/generator.ts 60-74). -/
def convertValueToString : Scalar → String
  | .str s => s
  | .num n => toString n
  | .bool b => if b then "true" else "false"

/-- The value-formatting conditional of `generateEnvContent`
(src/generator.ts 109-118). -/
def formatValue (resolved stringValue : String) (rawValue : Scalar) : String :=
  if resolved ≠ stringValue then resolved
  else
    match rawValue with
    | .num n => scalarToString (.num n)
    | .bool b => scalarToString (.bool b)
    | .str _ => resolved

/-- The per-variable loop of `generateEnvContent` (src/generator.ts
84-121), producing the `lines` array.  The loop returns the moment a
variable fails to resolve, wrapping the underlying message; a present
comment is emitted as a line only when non-empty (`if (inlineComment)`
is false for the empty string). -/
def generateEnvLines (sharedVars : List (String × Scalar)) :
    List (String × VariableValue) → Except String (List String)
  | [] => .ok []
  | (key, varValue) :: rest =>
    let extracted := extractVariableValue varValue
    let stringValue := convertValueToString extracted.1
    match resolveVariable stringValue sharedVars with
    | .error msg => .error ("Failed to resolve variable for " ++ key ++ ": " ++ msg)
    | .ok resolved =>
      let commentLines : List String :=
        match extracted.2 with
        | some c => if c = "" then [] else ["# " ++ c]
        | none => []
      let line := key ++ "=" ++ formatValue resolved stringValue extracted.1
      match generateEnvLines sharedVars rest with
      | .error msg => .error msg
      | .ok ls => .ok (commentLines ++ line :: ls)

/-- Embedding of `generateEnvContent` (src/generator.ts 80-124):
`lines.join("\n")` plus one final newline. -/
def generateEnvContent (vars : List (String × VariableValue))
    (sharedVars : List (String × Scalar)) : Except String String :=
  match generateEnvLines sharedVars vars with
  | .error msg => .error msg
  | .ok lines => .ok (joinSep "\n" lines ++ "\n")

/-- Environment shape (src/types.ts): legacy flat scalar map or extended
form with a `variables` record and an optional path. -/
inductive Environment where
  | legacy (vars : List (String × Scalar))
  | extended (vars : List (String × VariableValue)) (path : Option String)

/-- Embedding of `getEnvironmentVariables` (src/generator.ts 126-140):
the extended form exposes its `variables` record, the legacy flat form
is reused as the variable record itself. -/
def getEnvironmentVariables : Environment → List (String × VariableValue)
  | .legacy vars => vars.map (fun kv => (kv.1, VariableValue.scalar kv.2))
  | .extended vs _ => vs

/-- Application entry (src/types.ts AppSchema). -/
structure AppConfig where
  path : Option String
  environments : List (String × Environment)

/-- The `shared` section (src/types.ts SharedVariablesSchema). -/
structure SharedSection where
  vars : Option (List (String × Scalar))

/-- The whole configuration document (src/types.ts EnvConfigSchema). -/
structure EnvConfig where
  shared : Option SharedSection
  apps : List (String × AppConfig)

/-- Embedding of `config.shared?.variables ?? \x7b\x7d`
(src/generator.ts 216). -/
def sharedVariablesOf (config : EnvConfig) : List (String × Scalar) :=
  match config.shared with
  | some s => s.vars.getD []
  | none => []

/-- Embedding of `generateEnvFile` (src/generator.ts 210-243).  The
source's fourth parameter `_outputPath` is unused there and omitted
here.  Every failure is returned as a value; nothing is thrown. -/
def generateEnvFile (config : EnvConfig) (appName : String) (environment : String) :
    Except String String :=
  let sharedVars := sharedVariablesOf config
  match lookupAssoc config.apps appName with
  | none =>
    .error ("App '" ++ appName ++ "' not found in config. Available apps: "
      ++ joinSep ", " (config.apps.map Prod.fst))
  | some app =>
    match lookupAssoc app.environments environment with
    | none =>
      .error ("Environment '" ++ environment ++ "' not found for app '" ++ appName
        ++ "'. Available environments: " ++ joinSep ", " (app.environments.map Prod.fst))
    | some env => generateEnvContent (getEnvironmentVariables env) sharedVars

/-
Path resolution (src/utils/path.util.ts).
-/

/-- Embedding of `determineFilename` (src/utils/path.util.ts 4-14 and its
duplicate in src/generator.ts 166-175). -/
def determineFilename (envName : String) : String :=
  if envName = "local" then ".env.local"
  else if envName = "production" then ".env"
  else ".env." ++ envName

/-- JavaScript truthiness of an optional string: absent and empty are
falsy. -/
def truthy : Option String → Bool
  | none => false
  | some s => s ≠ ""

/-- Test whether a path string begins with the path separator, the
source's `p.startsWith("/")`. -/
def startsWithSlash (s : String) : Bool :=
  match s.data with
  | [] => false
  | c :: _ => c = '/'

/-- Node `join(dir, file)`, modelled for the separator-free segments this
program produces: concatenation with a single separator. -/
def pathJoin (dir file : String) : String := dir ++ "/" ++ file

/-- Node `resolve(root, p)` for a relative `p`, modelled as joining it to
the root. -/
def pathResolve (root p : String) : String := root ++ "/" ++ p

/-- Inputs of `determineOutputPath` (src/utils/path.util.ts PathOptions). -/
structure PathOptions where
  appName : String
  envName : String
  appPath : Option String
  envConfigPath : Option String
  autoDetectedDir : Option String
  rootDir : String

/-- Embedding of `determineOutputPath` (src/utils/path.util.ts 54-82):
environment-level hint, then application-level hint, then auto-detected
directory, then the flat `{app}.{env}.env` fallback under the root.
Each `if (x)` in the source is a JavaScript truthiness test. -/
def determineOutputPath (options : PathOptions) : String :=
  let filename := determineFilename options.envName
  if truthy options.envConfigPath then
    let p := options.envConfigPath.getD ""
    let path := if startsWithSlash p then p else pathResolve options.rootDir p
    pathJoin path filename
  else if truthy options.appPath then
    let p := options.appPath.getD ""
    let path := if startsWithSlash p then p else pathResolve options.rootDir p
    pathJoin path filename
  else if truthy options.autoDetectedDir then
    pathJoin (options.autoDetectedDir.getD "") filename
  else
    pathJoin options.rootDir (options.appName ++ "." ++ options.envName ++ ".env")

/-- Inputs of `determineFilePath` (src/utils/path.util.ts PathConfig). -/
structure PathConfig where
  appName : String
  envName : String
  appPath : Option String
  envConfigPath : Option String
  outputDir : String
  rootDir : String

/-- Embedding of `determineFilePath` (src/utils/path.util.ts 25-43 and
its duplicate in src/generator.ts 190-208): environment-level hint, then
application-level hint, then the flat fallback under the output
directory. -/
def determineFilePath (config : PathConfig) : String :=
  let filename := determineFilename config.envName
  if truthy config.envConfigPath then
    let p := config.envConfigPath.getD ""
    if startsWithSlash p then pathJoin p filename
    else config.rootDir ++ "/" ++ p ++ "/" ++ filename
  else if truthy config.appPath then
    let p := config.appPath.getD ""
    if startsWithSlash p then pathJoin p filename
    else config.rootDir ++ "/" ++ p ++ "/" ++ filename
  else
    pathJoin config.outputDir (config.appName ++ "." ++ config.envName ++ ".env")

/-
The configuration validator (src/types.ts, zod schemas).

A parsed YAML document is modelled as an untyped tree; each schema
becomes a boolean acceptance test.  Plain zod objects strip unknown
keys, so only the keys a schema mentions are inspected; the root schema
is `.strict()` and rejects unknown keys.
-/

/-- Untyped parsed document tree handed to the validator. -/
inductive Yaml where
  | str (s : String)
  | num (n : Int)
  | bool (b : Bool)
  | null
  | map (entries : List (String × Yaml))
  | arr (items : List Yaml)

/-- Acceptance of `z.string()`. -/
def isStrY : Yaml → Bool
  | .str _ => true
  | _ => false

/-- Acceptance of `SharedVariablesSchema` (src/types.ts 3-11): an object
whose optional `variables` key is a record of string values. -/
def validSharedSection : Yaml → Bool
  | .map entries =>
    match lookupAssoc entries "variables" with
    | some (.map vs) => vs.all (fun kv => isStrY kv.2)
    | some _ => false
    | none => true
  | _ => false

/-- Acceptance of `VariableValueSchema` (src/types.ts 14-31): a string,
or an object whose `value` is a string with optional string `comment`
and `type`. -/
def validVariableValue : Yaml → Bool
  | .str _ => true
  | .map entries =>
    (match lookupAssoc entries "value" with
     | some (.str _) => true
     | _ => false)
    && (match lookupAssoc entries "comment" with
        | some y => isStrY y
        | none => true)
    && (match lookupAssoc entries "type" with
        | some y => isStrY y
        | none => true)
  | _ => false

/-- Acceptance of the legacy branch of `AppEnvironmentValueSchema`
(src/types.ts 44): a record of string values. -/
def validLegacyEnv : Yaml → Bool
  | .map entries => entries.all (fun kv => isStrY kv.2)
  | _ => false

/-- Acceptance of the extended branch of `AppEnvironmentValueSchema`
(src/types.ts 45-54): an object with a `variables` record of non-empty
names to variable values and an optional string `path`. -/
def validExtendedEnv : Yaml → Bool
  | .map entries =>
    (match lookupAssoc entries "variables" with
     | some (.map vs) => vs.all (fun kv => kv.1 ≠ "" && validVariableValue kv.2)
     | _ => false)
    && (match lookupAssoc entries "path" with
        | some y => isStrY y
        | none => true)
  | _ => false

/-- Acceptance of `AppEnvironmentValueSchema` (src/types.ts 34-55), the
union of the two branches. -/
def validAppEnvironmentValue (y : Yaml) : Bool :=
  validLegacyEnv y || validExtendedEnv y

/-- Acceptance of `AppEnvironmentSchema` (src/types.ts 57-64): a record
of non-empty environment names refined to hold at least one entry. -/
def validEnvironments : Yaml → Bool
  | .map entries =>
    entries.all (fun kv => kv.1 ≠ "" && validAppEnvironmentValue kv.2)
    && !entries.isEmpty
  | _ => false

/-- Acceptance of `AppSchema` (src/types.ts 66-76): optional string
`path` and a mandatory `environments` record. -/
def validApp : Yaml → Bool
  | .map entries =>
    (match lookupAssoc entries "path" with
     | some y => isStrY y
     | none => true)
    && (match lookupAssoc entries "environments" with
        | some y => validEnvironments y
        | none => false)
  | _ => false

/-- Acceptance of the `apps` record (src/types.ts 81-86): non-empty app
names, valid apps, at least one entry. -/
def validApps : Yaml → Bool
  | .map entries =>
    entries.all (fun kv => kv.1 ≠ "" && validApp kv.2) && !entries.isEmpty
  | _ => false

/-- The root refinement (src/types.ts 89-99): every app has at least one
environment. -/
def appEnvironmentsNonempty : Yaml → Bool
  | .map entries =>
    match lookupAssoc entries "environments" with
    | some (.map envs) => !envs.isEmpty
    | _ => false
  | _ => false

/-- Acceptance of `EnvConfigSchema` (src/types.ts 78-99): a strict
object with an optional `shared` section and a mandatory `apps` record,
refined so every app has at least one environment. -/
def envConfigValid : Yaml → Bool
  | .map entries =>
    entries.all (fun kv => kv.1 = "shared" || kv.1 = "apps")
    && (match lookupAssoc entries "shared" with
        | some y => validSharedSection y
        | none => true)
    && (match lookupAssoc entries "apps" with
        | some y => validApps y
        | none => false)
    && (match lookupAssoc entries "apps" with
        | some (.map apps) => apps.all (fun kv => appEnvironmentsNonempty kv.2)
        | _ => false)
  | _ => false

/-
Validation-error formatting (src/parser.ts, formatZodError).
-/

/-- One zod issue: the dotted key path from the document root and a
message. -/
structure ZodIssue where
  path : List String
  message : String

/-- Embedding of `formatZodError` (src/parser.ts 11-30). -/
def formatZodError (issues : List ZodIssue) : String :=
  if issues.isEmpty then "Validation error: Invalid configuration"
  else
    let messages := issues.map (fun issue =>
      issue.message
        ++ (if issue.path.length > 0 then " at \"" ++ joinSep "." issue.path ++ "\"" else ""))
    if messages.length = 1 then "Validation error: " ++ messages.getD 0 ""
    else "Validation errors:\n" ++ joinSep "\n" (messages.map (fun m => "  - " ++ m))

/-
String helper lemmas.
-/

theorem strData_append (s t : String) : (s ++ t).data = s.data ++ t.data := by
  cases s; cases t; rfl

theorem strAppend_assoc (a b c : String) : a ++ b ++ c = a ++ (b ++ c) := by
  cases a; cases b; cases c
  show String.mk _ = String.mk _
  rw [List.append_assoc]

theorem strAppend_empty (s : String) : s ++ "" = s := by
  cases s
  show String.mk _ = String.mk _
  rw [List.append_nil]

theorem strAppend_left_cancel {s t u : String} (h : s ++ t = s ++ u) : t = u := by
  have hd : s.data ++ t.data = s.data ++ u.data := by
    rw [← strData_append, ← strData_append, h]
  have he := List.append_cancel_left hd
  cases t; cases u
  exact congrArg String.mk he

theorem strLength_append (s t : String) : (s ++ t).length = s.length + t.length := by
  show (s ++ t).data.length = s.data.length + t.data.length
  rw [strData_append, List.length_append]

/-
Spec-side descriptions used to state the claims.
-/

/-- The output buffer as the amended claim describes it: scanning left to
right, a resolvable placeholder occurrence is replaced by the string
form of the shared value, a missing one by the entire original input
string, and processing continues across the remainder. -/
def amendedBuffer (sharedVars : List (String × Scalar)) (orig : String) :
    List Char → List Char
  | [] => []
  | c :: cs =>
    match h : matchPlaceholder (c :: cs) with
    | some (name, rest) =>
      let b := amendedBuffer sharedVars orig rest
      match lookupAssoc sharedVars name with
      | some v => (scalarToString v).data ++ b
      | none => orig.data ++ b
    | none => c :: amendedBuffer sharedVars orig cs
termination_by l => l.length
decreasing_by
  · exact matchPlaceholder_length h
  · simp

/-- The string a successful resolution produces for a given input. -/
def resolvedString (sharedVars : List (String × Scalar)) (value : String) : String :=
  String.mk (resolveScan sharedVars value value.data).1

/-- The lines one variable contributes: an optional comment line
followed by its assignment line. -/
def blockLines (sharedVars : List (String × Scalar)) (kv : String × VariableValue) :
    List String :=
  (match (extractVariableValue kv.2).2 with
   | some c => if c = "" then [] else ["# " ++ c]
   | none => [])
  ++ [kv.1 ++ "=" ++ resolvedString sharedVars (convertValueToString (extractVariableValue kv.2).1)]

/-- The rendered text block of one variable: an optional comment line
`# <comment>` immediately followed by the assignment line
`NAME=value`, each line terminated by a newline. -/
def renderBlock (sharedVars : List (String × Scalar)) (kv : String × VariableValue) :
    String :=
  (match (extractVariableValue kv.2).2 with
   | some c => if c = "" then "" else "# " ++ c ++ "\n"
   | none => "")
  ++ kv.1 ++ "=" ++ resolvedString sharedVars (convertValueToString (extractVariableValue kv.2).1) ++ "\n"

/-- Concatenation of a list of text blocks, in order. -/
def concatBlocks : List String → String
  | [] => ""
  | b :: bs => b ++ concatBlocks bs

/-- Concatenation of a list of line groups, in order. -/
def flattenGroups : List (List String) → List String
  | [] => []
  | g :: gs => g ++ flattenGroups gs

/-- The suffix carrying an issue's dotted key path, omitted for an issue
at the document root. -/
def issuePathText (i : ZodIssue) : String :=
  if i.path = [] then "" else " at \"" ++ joinSep "." i.path ++ "\""

/-
Helper lemmas about the generator.
-/

theorem scan_fst_eq_amended (sharedVars : List (String × Scalar)) (orig : String)
    (l : List Char) :
    (resolveScan sharedVars orig l).1 = amendedBuffer sharedVars orig l := by
  induction l using resolveScan.induct sharedVars orig with
  | case1 => simp [resolveScan, amendedBuffer]
  | case2 c cs name rest hm v hv ih =>
    rw [resolveScan, amendedBuffer]
    split <;> (try split) <;> simp_all
  | case3 c cs name rest hm hv ih =>
    rw [resolveScan, amendedBuffer]
    split <;> (try split) <;> simp_all
  | case4 c cs hm ih =>
    rw [resolveScan, amendedBuffer]
    split <;> (try split) <;> simp_all

theorem resolveVariable_eq_ok {value : String} {sharedVars : List (String × Scalar)}
    (h : (resolveVariable value sharedVars).isOk = true) :
    resolveVariable value sharedVars = .ok (resolvedString sharedVars value) := by
  unfold resolveVariable resolvedString at *
  cases hl : (resolveScan sharedVars value value.data).2.getLast? with
  | some name => simp [hl, Except.isOk, Except.toBool] at h
  | none => simp [hl]

theorem formatValue_eq (resolved : String) (raw : Scalar) :
    formatValue resolved (convertValueToString raw) raw = resolved := by
  unfold formatValue
  by_cases h : resolved = convertValueToString raw
  · cases raw <;> simp [h, scalarToString, convertValueToString]
  · simp [h]

theorem joinSep_append (sep : String) (a b : List String) (ha : a ≠ []) (hb : b ≠ []) :
    joinSep sep (a ++ b) = joinSep sep a ++ sep ++ joinSep sep b := by
  induction a with
  | nil => exact absurd rfl ha
  | cons x xs ih =>
    cases xs with
    | nil =>
      cases b with
      | nil => exact absurd rfl hb
      | cons y ys => simp [joinSep]
    | cons x2 xs2 =>
      have ih2 := ih (by simp)
      have hsplit : (x :: x2 :: xs2) ++ b = x :: x2 :: (xs2 ++ b) := rfl
      rw [hsplit]
      have hstep : joinSep sep (x :: x2 :: (xs2 ++ b))
          = x ++ sep ++ joinSep sep (x2 :: (xs2 ++ b)) := by rw [joinSep]
      rw [hstep]
      have hrest : (x2 :: (xs2 ++ b)) = (x2 :: xs2) ++ b := rfl
      rw [hrest, ih2, joinSep]
      simp [strAppend_assoc]

theorem joinSep_flatten (groups : List (List String)) (hne : groups ≠ [])
    (hall : ∀ g ∈ groups, g ≠ []) :
    joinSep "\n" (flattenGroups groups) ++ "\n"
      = concatBlocks (groups.map (fun g => joinSep "\n" g ++ "\n")) := by
  induction groups with
  | nil => exact absurd rfl hne
  | cons g gs ih =>
    cases gs with
    | nil =>
      simp [flattenGroups, concatBlocks, strAppend_empty]
    | cons g2 gs2 =>
      have hg : g ≠ [] := hall g (by simp)
      have hg2 : g2 ≠ [] := hall g2 (by simp)
      have hflat : flattenGroups (g2 :: gs2) ≠ [] := by
        simp only [flattenGroups]
        intro hc
        rcases List.append_eq_nil.1 hc with ⟨hc1, _⟩
        exact hg2 hc1
      have hrec := ih (by simp) (fun g3 hg3 => hall g3 (by simp [hg3]))
      calc joinSep "\n" (flattenGroups (g :: g2 :: gs2)) ++ "\n"
          = joinSep "\n" (g ++ flattenGroups (g2 :: gs2)) ++ "\n" := rfl
        _ = (joinSep "\n" g ++ "\n" ++ joinSep "\n" (flattenGroups (g2 :: gs2))) ++ "\n" := by
              rw [joinSep_append _ _ _ hg hflat]
        _ = (joinSep "\n" g ++ "\n") ++ (joinSep "\n" (flattenGroups (g2 :: gs2)) ++ "\n") := by
              simp [strAppend_assoc]
        _ = (joinSep "\n" g ++ "\n")
              ++ concatBlocks ((g2 :: gs2).map (fun g => joinSep "\n" g ++ "\n")) := by
              rw [hrec]
        _ = concatBlocks ((g :: g2 :: gs2).map (fun g => joinSep "\n" g ++ "\n")) := by
              simp [concatBlocks]

theorem blockLines_ne_nil (sharedVars : List (String × Scalar))
    (kv : String × VariableValue) : blockLines sharedVars kv ≠ [] := by
  unfold blockLines
  intro hc
  rcases List.append_eq_nil.1 hc with ⟨_, hc2⟩
  exact List.cons_ne_nil _ _ hc2

theorem renderBlock_eq_joined (sharedVars : List (String × Scalar))
    (kv : String × VariableValue) :
    renderBlock sharedVars kv = joinSep "\n" (blockLines sharedVars kv) ++ "\n" := by
  unfold renderBlock blockLines
  cases hc : (extractVariableValue kv.2).2 with
  | none => simp [joinSep]
  | some c =>
    by_cases hce : c = ""
    · simp [hce, joinSep]
    · simp [hce, joinSep, strAppend_assoc]

theorem generateEnvLines_eq (sharedVars : List (String × Scalar))
    (vars : List (String × VariableValue))
    (hok : ∀ kv ∈ vars,
      (resolveVariable (convertValueToString (extractVariableValue kv.2).1) sharedVars).isOk
        = true) :
    generateEnvLines sharedVars vars = .ok (flattenGroups (vars.map (blockLines sharedVars))) := by
  induction vars with
  | nil => simp [generateEnvLines, flattenGroups]
  | cons kv rest ih =>
    obtain ⟨key, vv⟩ := kv
    have h1 := hok (key, vv) (by simp)
    have h2 := resolveVariable_eq_ok h1
    have ihh := ih (fun kv2 hkv2 => hok kv2 (by simp [hkv2]))
    simp only [generateEnvLines, h2, ihh]
    simp [blockLines, formatValue_eq, flattenGroups]

/-
Sample configurations used by witnesses and counterexamples.
-/

/-- A configuration with one app `backend` holding one environment
`local`. -/
def cfgSample : EnvConfig :=
  ⟨none, [("backend", ⟨none, [("local",
    .extended [("PORT", .scalar (.str "3000"))] none)]⟩)]⟩

/-- A configuration whose only environment declares no variables. -/
def cfgEmptyEnv : EnvConfig :=
  ⟨none, [("app", ⟨none, [("local", .extended [] none)]⟩)]⟩

/-- A document that is well formed except for the scalar leaf standing
as the value of the shared variable `API_URL`. -/
def docWithSharedValue (v : Yaml) : Yaml :=
  .map [("shared", .map [("variables", .map [("API_URL", v)])]),
        ("apps", .map [("backend", .map [("environments",
          .map [("local", .map [("PORT", .str "3000")])])])])]

/-- A document that is well formed except for the scalar leaf standing
as the `value` payload of the annotated variable `PORT`. -/
def docWithVariableValue (v : Yaml) : Yaml :=
  .map [("apps", .map [("backend", .map [("environments",
    .map [("local", .map [("variables",
      .map [("PORT", .map [("value", v)])])])])])])]

/-- The two variables of the C2 failing input, each referencing a
distinct missing shared name. -/
def c2vars : List (String × VariableValue) :=
  [("VAR1", .scalar (.str "$\x7bshared:NOT_FOUND_1\x7d")),
   ("VAR2", .scalar (.str "$\x7bshared:NOT_FOUND_2\x7d"))]

/-
The claims.
-/

/-- C1: the claim says the resolver fails with a message that records
each distinct missing name once, in first-encounter order, using the
multi-name form when more than one name is missing.  Evaluating the
source at an input with two missing names shows it instead reports only
the last missing occurrence with the single-name message: the single
`hasError` slot is overwritten by every missing occurrence. -/
theorem c1_code_behavior :
    resolveVariable "$\x7bshared:A\x7d-$\x7bshared:B\x7d" []
      = .error "Shared variable 'B' not found" ∧
    resolveVariable "$\x7bshared:A\x7d-$\x7bshared:B\x7d" []
      ≠ .error "Shared variables not found: 'A', 'B'" := by
  have h : resolveVariable "$\x7bshared:A\x7d-$\x7bshared:B\x7d" []
      = .error "Shared variable 'B' not found" := by
    simp [resolveVariable, resolveScan, matchPlaceholder, splitAtCloseBrace,
      startsWithChars, placeholderHead, lookupAssoc, String.data]
  exact ⟨h, by rw [h]; simp⟩

/-- C2: the claim says generation with two failing variables attempts
every variable and returns one aggregated failure.  Evaluating the
source on two variables that each reference a distinct missing shared
name shows it aborts at the first failing variable and reports only
that one. -/
theorem c2_code_behavior :
    generateEnvContent c2vars []
      = .error
          "Failed to resolve variable for VAR1: Shared variable 'NOT_FOUND_1' not found" := by
  simp [c2vars, generateEnvContent, generateEnvLines, extractVariableValue,
    convertValueToString, resolveVariable, resolveScan, matchPlaceholder,
    splitAtCloseBrace, startsWithChars, placeholderHead, lookupAssoc, String.data]

/-- C3 counterexample: the claim says a missing occurrence keeps its
original placeholder text unchanged at its position, so on an input
whose only placeholder is missing the buffer would equal the input.
The source callback instead returns the whole original input string, so
the buffer for `a$\x7bshared:X\x7db` is `aa$\x7bshared:X\x7dbb`. -/
theorem c3_counterexample :
    (resolveScan [] "a$\x7bshared:X\x7db" "a$\x7bshared:X\x7db".data).1
      = "aa$\x7bshared:X\x7dbb".data ∧
    "aa$\x7bshared:X\x7dbb".data ≠ "a$\x7bshared:X\x7db".data := by
  constructor
  · simp [resolveScan, matchPlaceholder, splitAtCloseBrace, startsWithChars,
      placeholderHead, lookupAssoc, String.data]
  · decide

/-- C3 (amended): the output buffer of the resolver substitutes every
resolvable placeholder occurrence and replaces every missing occurrence
with the entire original input string, continuing across the remainder
of the input in either case. -/
theorem c3_amended_buffer (sharedVars : List (String × Scalar)) (orig : String)
    (l : List Char) :
    (resolveScan sharedVars orig l).1 = amendedBuffer sharedVars orig l := by
  induction l using resolveScan.induct sharedVars orig with
  | case1 => simp [resolveScan, amendedBuffer]
  | case2 c cs name rest hm v hv ih =>
    rw [resolveScan, amendedBuffer]
    split <;> (try split) <;> simp_all
  | case3 c cs name rest hm hv ih =>
    rw [resolveScan, amendedBuffer]
    split <;> (try split) <;> simp_all
  | case4 c cs hm ih =>
    rw [resolveScan, amendedBuffer]
    split <;> (try split) <;> simp_all

/-- C4 counterexample: an otherwise well-formed document validates with
a string scalar, but replacing that scalar by a number or a boolean
makes validation fail, both for a shared value and for an application
variable payload. -/
theorem c4_counterexample :
    envConfigValid (docWithSharedValue (.str "x")) = true ∧
    envConfigValid (docWithSharedValue (.num 3000)) = false ∧
    envConfigValid (docWithSharedValue (.bool true)) = false ∧
    envConfigValid (docWithVariableValue (.str "3000")) = true ∧
    envConfigValid (docWithVariableValue (.num 3000)) = false ∧
    envConfigValid (docWithVariableValue (.bool true)) = false := by
  decide

/-- C4 (amended): the validator accepts only string scalars: a document
that is well formed except for one scalar leaf, either a shared value
or an application variable payload, validates exactly when that leaf is
a string. -/
theorem c4_amended_strings_only (v : Yaml) :
    (envConfigValid (docWithSharedValue v) = true ↔ ∃ s, v = Yaml.str s) ∧
    (envConfigValid (docWithVariableValue v) = true ↔ ∃ s, v = Yaml.str s) := by
  cases v
  case str s => exact ⟨⟨fun _ => ⟨s, rfl⟩, fun _ => rfl⟩, ⟨fun _ => ⟨s, rfl⟩, fun _ => rfl⟩⟩
  all_goals
    refine ⟨⟨fun h => absurd h Bool.false_ne_true, ?_⟩,
            ⟨fun h => absurd h Bool.false_ne_true, ?_⟩⟩ <;>
      (intro hs; obtain ⟨s, hs⟩ := hs; exact Yaml.noConfusion hs)

/-- C5: determineFilename maps `local` to `.env.local`, `production` to
`.env`, and any other name `e` to `.env.` followed by `e`, and the two
special outputs arise only from the two special names; the function
depends on the environment name alone. -/
theorem c5_determineFilename_law (e : String) :
    (determineFilename e = ".env.local" ↔ e = "local") ∧
    (determineFilename e = ".env" ↔ e = "production") ∧
    (e ≠ "local" → e ≠ "production" → determineFilename e = ".env." ++ e) := by
  by_cases h1 : e = "local"
  · subst h1
    exact ⟨by simp [determineFilename], by simp [determineFilename],
      fun h _ => absurd rfl h⟩
  · by_cases h2 : e = "production"
    · subst h2
      exact ⟨by simp [determineFilename], by simp [determineFilename],
        fun _ h => absurd rfl h⟩
    · have hgen : determineFilename e = ".env." ++ e := by
        simp [determineFilename, h1, h2]
      refine ⟨?_, ?_, fun _ _ => hgen⟩
      · rw [hgen]
        constructor
        · intro hx
          have hx2 : (".env." : String) ++ e = ".env." ++ "local" := by rw [hx]; decide
          exact strAppend_left_cancel hx2
        · intro hx
          exact absurd hx h1
      · rw [hgen]
        constructor
        · intro hx
          exfalso
          have hlen := congrArg String.length hx
          rw [strLength_append] at hlen
          have e1 : (".env." : String).length = 5 := by decide
          have e2 : (".env" : String).length = 4 := by decide
          rw [e1, e2] at hlen
          omega
        · intro hx
          exact absurd hx h2

/-- Witness for C5 at the concrete names `local` and `staging`. -/
theorem c5_witness :
    determineFilename "local" = ".env.local" ∧
    determineFilename "staging" = ".env." ++ "staging" := by
  constructor
  · exact (c5_determineFilename_law "local").1.2 rfl
  · exact (c5_determineFilename_law "staging").2.2 (by decide) (by decide)

/-- C6 counterexample: the claim says a present environment-level hint
always wins and a non-absolute hint is resolved against the root.  With
the present but empty hint the source falls through to the flat
fallback instead of using the hint. -/
theorem c6_counterexample :
    determineOutputPath ⟨"backend", "local", none, some "", none, "/r"⟩
      = "/r/backend.local.env" ∧
    "/r/backend.local.env"
      ≠ pathJoin (pathResolve "/r" "") (determineFilename "local") := by
  decide

/-- C6 (amended): the four-level priority holds with presence read as
JavaScript truthiness, so an empty-string hint or auto-detected
directory is treated as absent: a non-empty environment-level hint wins,
then a non-empty application-level hint, then a non-empty auto-detected
directory, then the flat fallback under the root; a hint starting with
the path separator is used verbatim, and otherwise resolves against the
root.  determineFilePath uses its output directory for the same flat
fallback. -/
theorem c6_outputPath_priority (o : PathOptions) :
    (∀ p, o.envConfigPath = some p → p ≠ "" →
      determineOutputPath o
        = pathJoin (if startsWithSlash p then p else pathResolve o.rootDir p)
            (determineFilename o.envName)) ∧
    (truthy o.envConfigPath = false → ∀ p, o.appPath = some p → p ≠ "" →
      determineOutputPath o
        = pathJoin (if startsWithSlash p then p else pathResolve o.rootDir p)
            (determineFilename o.envName)) ∧
    (truthy o.envConfigPath = false → truthy o.appPath = false →
      ∀ d, o.autoDetectedDir = some d → d ≠ "" →
      determineOutputPath o = pathJoin d (determineFilename o.envName)) ∧
    (truthy o.envConfigPath = false → truthy o.appPath = false →
      truthy o.autoDetectedDir = false →
      determineOutputPath o
        = pathJoin o.rootDir (o.appName ++ "." ++ o.envName ++ ".env")) ∧
    (∀ c : PathConfig, truthy c.envConfigPath = false → truthy c.appPath = false →
      determineFilePath c
        = pathJoin c.outputDir (c.appName ++ "." ++ c.envName ++ ".env")) := by
  refine ⟨?_, ?_, ?_, ?_, ?_⟩
  · intro p hp hpne
    have ht : truthy o.envConfigPath = true := by rw [hp]; simp [truthy, hpne]
    simp only [determineOutputPath, ht]
    simp [hp]
  · intro h1 p hp hpne
    have ht : truthy o.appPath = true := by rw [hp]; simp [truthy, hpne]
    simp only [determineOutputPath, h1, ht]
    simp [hp]
  · intro h1 h2 d hd hdne
    have ht : truthy o.autoDetectedDir = true := by rw [hd]; simp [truthy, hdne]
    simp only [determineOutputPath, h1, h2, ht]
    simp [hd]
  · intro h1 h2 h3
    simp [determineOutputPath, h1, h2, h3]
  · intro c h1 h2
    simp [determineFilePath, h1, h2]

/-- Witness for C6 at concrete path options exercising the first
priority level and the fallback. -/
theorem c6_witness :
    determineOutputPath ⟨"backend", "development", some "/apps/backend",
        some "custom/env", some "/auto", "/project"⟩
      = pathJoin (pathResolve "/project" "custom/env") (determineFilename "development") ∧
    determineOutputPath ⟨"backend", "test", none, none, none, "/project"⟩
      = pathJoin "/project" ("backend" ++ "." ++ "test" ++ ".env") := by
  constructor
  · have h := (c6_outputPath_priority
      ⟨"backend", "development", some "/apps/backend", some "custom/env",
        some "/auto", "/project"⟩).1 "custom/env" rfl (by decide)
    rw [h]; decide
  · exact (c6_outputPath_priority ⟨"backend", "test", none, none, none, "/project"⟩).2.2.2.1
      rfl rfl rfl

/-- C7: for every environment with at least one variable whose values
all resolve, the generated content is exactly the concatenation, in
source order, of one block per variable, a block being an optional
comment line `# <comment>` immediately followed by the assignment line
`NAME=value`, each line terminated by a newline; the whole file thus
carries exactly one trailing newline and no blank line between
variables, and the order does not depend on resolution outcomes. -/
theorem c7_content_shape (vars : List (String × VariableValue))
    (sharedVars : List (String × Scalar)) (hne : vars ≠ [])
    (hok : ∀ kv ∈ vars,
      (resolveVariable (convertValueToString (extractVariableValue kv.2).1) sharedVars).isOk
        = true) :
    generateEnvContent vars sharedVars
      = .ok (concatBlocks (vars.map (renderBlock sharedVars))) := by
  have h1 := generateEnvLines_eq sharedVars vars hok
  have hstep : generateEnvContent vars sharedVars
      = .ok (joinSep "\n" (flattenGroups (vars.map (blockLines sharedVars))) ++ "\n") := by
    unfold generateEnvContent
    rw [h1]
  rw [hstep]
  have h2 : joinSep "\n" (flattenGroups (vars.map (blockLines sharedVars))) ++ "\n"
      = concatBlocks ((vars.map (blockLines sharedVars)).map
          (fun g => joinSep "\n" g ++ "\n")) := by
    apply joinSep_flatten
    · simpa using hne
    · intro g hg
      obtain ⟨kv, _, hkv⟩ := List.mem_map.1 hg
      rw [← hkv]
      exact blockLines_ne_nil sharedVars kv
  rw [h2, List.map_map]
  have h3 : ((fun g => joinSep "\n" g ++ "\n") ∘ blockLines sharedVars)
      = renderBlock sharedVars :=
    funext fun kv => (renderBlock_eq_joined sharedVars kv).symm
  rw [h3]

/-- Witness for C7 at a one-variable environment. -/
theorem c7_witness : generateEnvContent [("A", .scalar (.str "v"))] [] = .ok "A=v\n" := by
  have h := c7_content_shape [("A", .scalar (.str "v"))] [] (by simp)
    (by
      intro kv hkv
      simp only [List.mem_singleton] at hkv
      subst hkv
      simp [extractVariableValue, convertValueToString, resolveVariable, resolveScan,
        matchPlaceholder, splitAtCloseBrace, startsWithChars, placeholderHead,
        Except.isOk, Except.toBool])
  rw [h]
  simp [concatBlocks, renderBlock, extractVariableValue, convertValueToString,
    resolvedString, resolveScan, matchPlaceholder, splitAtCloseBrace, startsWithChars,
    placeholderHead, strAppend_empty]

/-- C8: the formatted validation failure is a single message; with
exactly one issue it is the single-issue form carrying that issue text
and its dotted key path, the path omitted for a root issue, and with
two or more issues it is the bulleted list with one line per issue,
each line carrying its own path, so no issue is dropped. -/
theorem c8_formatZodError_shape (issues : List ZodIssue) :
    (∀ i, issues = [i] →
      formatZodError issues = "Validation error: " ++ i.message ++ issuePathText i) ∧
    (2 ≤ issues.length →
      formatZodError issues
        = "Validation errors:\n"
            ++ joinSep "\n" (issues.map (fun i => "  - " ++ (i.message ++ issuePathText i)))) := by
  constructor
  · intro i hi
    subst hi
    cases hp : i.path with
    | nil => simp [formatZodError, issuePathText, hp]
    | cons q qs => simp [formatZodError, issuePathText, hp, strAppend_assoc]
  · intro h2
    cases issues with
    | nil => simp at h2
    | cons i rest =>
      cases rest with
      | nil => simp at h2
      | cons j rest2 =>
        have hlen : ((i :: j :: rest2).map (fun issue =>
            issue.message
              ++ (if issue.path.length > 0 then " at \"" ++ joinSep "." issue.path ++ "\""
                  else ""))).length = 1 → False := by
          simp
        have hone : (fun issue =>
            issue.message
              ++ (if issue.path.length > 0 then " at \"" ++ joinSep "." issue.path ++ "\""
                  else ""))
            = fun i => i.message ++ issuePathText i := by
          funext k
          cases hp : k.path with
          | nil => simp [issuePathText, hp]
          | cons q qs => simp [issuePathText, hp]
        simp only [formatZodError, List.isEmpty_cons, Bool.false_eq_true, if_false, hone]
        simp [List.map_map, Function.comp_def]

/-- Witness for C8 at a single root issue, a single issue with a path,
and a pair of issues. -/
theorem c8_witness :
    formatZodError [⟨["apps"], "Required"⟩]
      = "Validation error: Required at \"apps\"" ∧
    formatZodError [⟨[], "A"⟩, ⟨["x", "y"], "B"⟩]
      = "Validation errors:\n  - A\n  - B at \"x.y\"" := by
  constructor
  · have h := (c8_formatZodError_shape [⟨["apps"], "Required"⟩]).1 ⟨["apps"], "Required"⟩ rfl
    rw [h]; decide
  · have h := (c8_formatZodError_shape [⟨[], "A"⟩, ⟨["x", "y"], "B"⟩]).2 (by decide)
    rw [h]; decide

/-- C9: looking up an absent application fails with the message naming
it and listing every known application name, and looking up an absent
environment of an existing application fails with the message naming it
and listing every known environment name of that application; both
failures are returned as values of the total function. -/
theorem c9_not_found_errors (cfg : EnvConfig) (a e : String) :
    (lookupAssoc cfg.apps a = none →
      generateEnvFile cfg a e
        = .error ("App '" ++ a ++ "' not found in config. Available apps: "
            ++ joinSep ", " (cfg.apps.map Prod.fst))) ∧
    (∀ app, lookupAssoc cfg.apps a = some app →
      lookupAssoc app.environments e = none →
      generateEnvFile cfg a e
        = .error ("Environment '" ++ e ++ "' not found for app '" ++ a
            ++ "'. Available environments: "
            ++ joinSep ", " (app.environments.map Prod.fst))) := by
  constructor
  · intro h
    simp [generateEnvFile, h]
  · intro app h1 h2
    simp [generateEnvFile, h1, h2]

/-- Witness for C9 on a configuration holding only backend.local. -/
theorem c9_witness :
    generateEnvFile cfgSample "frontend" "local"
      = .error "App 'frontend' not found in config. Available apps: backend" ∧
    generateEnvFile cfgSample "backend" "production"
      = .error
          "Environment 'production' not found for app 'backend'. Available environments: local" := by
  constructor
  · have h := (c9_not_found_errors cfgSample "frontend" "local").1 rfl
    rw [h]
    exact congrArg Except.error (by decide)
  · have h := (c9_not_found_errors cfgSample "backend" "production").2 _ rfl rfl
    rw [h]
    exact congrArg Except.error (by decide)

/-- C10: when the application and environment exist but the environment
declares no variables, single-file generation succeeds and returns the
single newline character, not the empty string. -/
theorem c10_empty_env (cfg : EnvConfig) (a e : String) (app : AppConfig)
    (env : Environment)
    (h1 : lookupAssoc cfg.apps a = some app)
    (h2 : lookupAssoc app.environments e = some env)
    (h3 : getEnvironmentVariables env = []) :
    generateEnvFile cfg a e = .ok "\n" ∧ ("\n" : String) ≠ "" := by
  refine ⟨?_, by decide⟩
  simp [generateEnvFile, h1, h2, generateEnvContent, h3, generateEnvLines, joinSep]

/-- Witness for C10 on a configuration whose environment is empty. -/
theorem c10_witness :
    generateEnvFile cfgEmptyEnv "app" "local" = .ok "\n" ∧ ("\n" : String) ≠ "" :=
  c10_empty_env cfgEmptyEnv "app" "local" _ _ rfl rfl rfl

end Genv
